import Mathlib

/-!
# Verification of the exam-shtocker reconciliation engine

Shallow embedding of the Exam Synchronization Pipeline of the
`exam-shtocker` repository: `src/exam_shtocker/processor.py`
(`ExamProcessor.get_hashes_for_infr_code`, `ExamProcessor.process_exams`,
`ExamProcessor.download_exam`), its collaborators in
`src/exam_shtocker/filecollection.py` (`get_category_slug_for_infr_code`,
`get_hashes_for_category`, `upload_exam`) and the static known-bad list in
`src/exam_shtocker/known_bads.py`.

Network I/O (`requests.Session`) is modelled by an `Env` record of response
oracles; every collaborator call is additionally recorded in an event trace
so that absence-of-call properties (no upload in dry runs, no category
resolution for known-bad files, at most one remote listing per category)
are statable.  Logging, progress-loader animation, `time.sleep` and
temporary-file removal are presentation/resource concerns with no influence
on decisions or the inventory; the single observable piece of loader
behaviour that depends on the configuration (the loud skip message printed
exactly when `continue_on_unknown_code == [""]`, processor.py lines
127-137) is kept as a trace event.

Python byte strings are `List Nat` (each entry a byte value); Python
exceptions are `Except Err` with `Err := String` — the repository raises
only plain `Exception`, so a single error type is faithful.  The digest
function `hashlib.sha256(·).digest()` is the Fingerprint-Source
collaborator; the engine takes it as the `Env.hash` field, and the concrete
SHA-256 algorithm is defined separately below (`sha256`) for the claims
about the digest itself.
-/

namespace ExamShtocker

/-- Python `bytes`: a list of byte values. -/
abbrev Bytes := List Nat

/-- A content fingerprint: the digest bytes (`hashlib.sha256(...).digest()`). -/
abbrev Hash := List Nat

/-- Python exceptions carry a message; the repo only raises plain `Exception`. -/
abbrev Err := String

instance {α β : Type} [DecidableEq α] [DecidableEq β] : DecidableEq (Except α β) := fun x y =>
  match x, y with
  | Except.error a, Except.error b =>
    if h : a = b then Decidable.isTrue (by rw [h]) else Decidable.isFalse (by simp [h])
  | Except.ok a, Except.ok b =>
    if h : a = b then Decidable.isTrue (by rw [h]) else Decidable.isFalse (by simp [h])
  | Except.error _, Except.ok _ => Decidable.isFalse (by simp)
  | Except.ok _, Except.error _ => Decidable.isFalse (by simp)

/-- `scraper.Exam` (scraper.py lines 10-23).  `processor.py` accesses the
category code attribute as `infr_code`; we use that name since the claims
are about `processor.py`. -/
structure Exam where
  infr_code : String
  title : String
  year : String
  download_url : String
deriving DecidableEq, Repr

/-- First entry of `known_bads.known_bad_hashes` (known_bads.py line 4):
`bytes.fromhex("024607a87ae1691d0e92486ec5ee844949109ab93fbecfb680a8980ea59eab4e")`
as a byte list. -/
def knownBad1 : Hash :=
  [2, 70, 7, 168, 122, 225, 105, 29, 14, 146, 72, 110, 197, 238, 132, 73,
   73, 16, 154, 185, 63, 190, 207, 182, 128, 168, 152, 14, 165, 158, 171, 78]

/-- Second entry of `known_bads.known_bad_hashes` (known_bads.py line 6):
`bytes.fromhex("b4a342506676f77aca96d5585fbde572799be567abeaaed18332b172c4a888e1")`
as a byte list. -/
def knownBad2 : Hash :=
  [180, 163, 66, 80, 102, 118, 247, 122, 202, 150, 213, 88, 95, 189, 229, 114,
   121, 155, 229, 103, 171, 234, 174, 209, 131, 50, 177, 114, 196, 168, 136, 225]

/-- `known_bads.known_bad_hashes` (known_bads.py lines 2-7). -/
def known_bad_hashes : List Hash := [knownBad1, knownBad2]

/-- Environment of external collaborators: each field is the response the
remote service gives to one kind of HTTP request made by the code. -/
structure Env where
  /-- `session.get(exam.download_url).content` (processor.py line 185). -/
  contents : Exam → Bytes
  /-- The digest algorithm `hashlib.sha256(·).digest()` (processor.py line
  186, filecollection.py line 104): the Fingerprint-Source collaborator.
  The reference implementation is `sha256` below. -/
  hash : Bytes → Hash
  /-- `filecollection.get_category_slug_for_infr_code` outcome: `.ok slug`
  on HTTP 200, `.error` when the request fails / the code is unmapped
  (filecollection.py lines 37-45). -/
  slugResponse : String → Except Err String
  /-- The `listexams/{slug}` call of `filecollection.get_hashes_for_category`:
  `.ok` with the filenames of the existing exams in the category, `.error`
  on a non-200 response (filecollection.py lines 78-88). -/
  listResponse : String → Except Err (List String)
  /-- Downloading one existing exam file during
  `filecollection.get_hashes_for_category` (filecollection.py lines 92-101):
  `.ok` with its bytes, `.error` on a non-200 response. -/
  fileResponse : String → Except Err Bytes
  /-- The upload POST of `filecollection.upload_exam` (filecollection.py
  lines 171-188): given the category slug and the file bytes, `.ok filename`
  on HTTP 200, `.error` otherwise. -/
  uploadResponse : String → Bytes → Except Err String

/-- One recorded collaborator interaction, used to state which remote calls
a run performs (and which it must not perform). -/
inductive Event
  /-- Fetch of the candidate document itself (processor.py line 185). -/
  | fetchDoc (ex : Exam)
  /-- Category resolution call (filecollection.py lines 37-39). -/
  | resolveCat (code : String)
  /-- Listing the existing exams of a category (filecollection.py lines 78-81). -/
  | listCat (slug : String)
  /-- Download of one already-present exam file (filecollection.py lines 92-101). -/
  | fetchExisting (f : String)
  /-- The upload POST (filecollection.py lines 171-184). -/
  | uploadCall (slug : String) (b : Bytes)
  /-- The loud `loader.stop("Skipping: ... does not exist on BI ...")`
  message of processor.py lines 134-136. -/
  | loudSkip (ex : Exam)
deriving DecidableEq, Repr

/-- `filecollection.get_category_slug_for_infr_code` (filecollection.py
lines 15-45): one GET; non-200 raises, otherwise the slug is returned. -/
def get_category_slug_for_infr_code (env : Env) (infr_code : String) :
    List Event × Except Err String :=
  ([Event.resolveCat infr_code], env.slugResponse infr_code)

/-- The per-file loop of `filecollection.get_hashes_for_category`
(filecollection.py lines 87-104): download each listed exam file and hash
its contents, raising on the first failed download. -/
def hashExistingFiles (env : Env) : List String → List Event × Except Err (List Hash)
  | [] => ([], Except.ok [])
  | f :: fs =>
    match env.fileResponse f with
    | Except.error e => ([Event.fetchExisting f], Except.error e)
    | Except.ok c =>
      let r := hashExistingFiles env fs
      (Event.fetchExisting f :: r.1, r.2.map (fun hs => env.hash c :: hs))

/-- `filecollection.get_hashes_for_category` (filecollection.py lines
48-107): list the category (non-200 raises), then download and hash every
listed file. -/
def get_hashes_for_category (env : Env) (slug : String) :
    List Event × Except Err (List Hash) :=
  match env.listResponse slug with
  | Except.error e => ([Event.listCat slug], Except.error e)
  | Except.ok files =>
    let r := hashExistingFiles env files
    (Event.listCat slug :: r.1, r.2)

/-- `filecollection.upload_exam` (filecollection.py lines 136-189): resolve
the slug for the code (may raise), then POST the file (non-200 raises); on
success the destination URL is built from the returned filename.  (The
diet-parsing of the PDF only affects the display name, not the outcome.) -/
def upload_exam (env : Env) (infr_code : String) (fileBytes : Bytes) :
    List Event × Except Err String :=
  match env.slugResponse infr_code with
  | Except.error e => ([Event.resolveCat infr_code], Except.error e)
  | Except.ok slug =>
    match env.uploadResponse slug fileBytes with
    | Except.error e =>
      ([Event.resolveCat infr_code, Event.uploadCall slug fileBytes], Except.error e)
    | Except.ok filename =>
      ([Event.resolveCat infr_code, Event.uploadCall slug fileBytes],
       Except.ok ("https://files.betterinformatics.com/exams/" ++ filename))

/-- The processor state: `ExamProcessor.uploaded_hashes_by_infr_code`
(processor.py line 18), a `dict[str, list[bytes]]` modelled as a partial
map from codes to hash lists. -/
def Cache := String → Option (List Hash)

/-- The empty dict set up in `ExamProcessor.__init__` (processor.py line 24). -/
def initCache : Cache := fun _ => none

/-- `ExamProcessor.get_hashes_for_infr_code` (processor.py lines 26-58):
on a cache hit return the stored list with no remote call; on a miss,
resolve the slug (propagating failure), list-and-hash the category
(propagating failure), store the result under the code and return it. -/
def get_hashes_for_infr_code (env : Env) (st : Cache) (infr_code : String) :
    Cache × List Event × Except Err (List Hash) :=
  match st infr_code with
  | some hs => (st, [], Except.ok hs)
  | none =>
    match env.slugResponse infr_code with
    | Except.error e => (st, [Event.resolveCat infr_code], Except.error e)
    | Except.ok slug =>
      match get_hashes_for_category env slug with
      | (evts, Except.error e) => (st, Event.resolveCat infr_code :: evts, Except.error e)
      | (evts, Except.ok hs) =>
        (fun c => if c = infr_code then some hs else st c,
         Event.resolveCat infr_code :: evts, Except.ok hs)

/-- Python's `str.startswith(prefix)` (used at processor.py line 121):
true exactly when `p` is a prefix of `s`. -/
def strStartsWith (s p : String) : Bool := p.data.isPrefixOf s.data

/-- The decision reached for one document (spec §3 "Decision"; the dry-run
outcome is the reported "would upload"). -/
inductive Decision
  | Upload (h : Hash) (url : String)
  | SkipDuplicate
  | SkipKnownBad
  | SkipUnknownCategory
  | DryRun
deriving DecidableEq, Repr

/-- The fingerprint of a candidate document: `ExamProcessor.download_exam`
(processor.py lines 170-194) fetches the document bytes and digests them
(`file_hash = hashlib.sha256(contents).digest()`, line 186). -/
def hashOf (env : Env) (ex : Exam) : Hash := env.hash (env.contents ex)

/-- The post-upload record step (processor.py line 158):
`self.uploaded_hashes_by_infr_code[exam.infr_code].append(file_hash)` —
append `h` to the list stored under `code`, touching no other entry. -/
def recordCache (st : Cache) (code : String) (h : Hash) : Cache :=
  fun c => if c = code then (st c).map (fun l => l ++ [h]) else st c

/-- One iteration of the loop body of `ExamProcessor.process_exams`
(processor.py lines 82-162): fetch and hash the document (lines 96-99);
skip if the hash is known-bad (lines 101-107); otherwise run the duplicate
check (lines 109-116) whose exceptions — of any kind — are caught by the
`except Exception` handler (lines 117-140): with a prefix list configured,
a code matching some prefix is skipped (loudly exactly when the list is
`[""]`), otherwise the exception is re-raised; on a duplicate hash skip;
in a dry run stop before uploading (lines 145-151); otherwise upload
(uncaught exceptions propagate, lines 153-155) and append the hash to the
cached list for the code (line 158). -/
def processOne (env : Env) (dry_run : Bool) (cont : Option (List String))
    (st : Cache) (ex : Exam) : Cache × List Event × Except Err Decision :=
  if hashOf env ex ∈ known_bad_hashes then
    (st, [Event.fetchDoc ex], Except.ok Decision.SkipKnownBad)
  else
    match get_hashes_for_infr_code env st ex.infr_code with
    | (st1, evts, Except.error e) =>
      match cont with
      | none => (st1, Event.fetchDoc ex :: evts, Except.error e)
      | some prefixes =>
        if prefixes.any (fun p => strStartsWith ex.infr_code p) then
          (st1,
           Event.fetchDoc ex ::
             (if prefixes = [""] then evts ++ [Event.loudSkip ex] else evts),
           Except.ok Decision.SkipUnknownCategory)
        else
          (st1, Event.fetchDoc ex :: evts, Except.error e)
    | (st1, evts, Except.ok hs) =>
      if hashOf env ex ∈ hs then
        (st1, Event.fetchDoc ex :: evts, Except.ok Decision.SkipDuplicate)
      else if dry_run then
        (st1, Event.fetchDoc ex :: evts, Except.ok Decision.DryRun)
      else
        match upload_exam env ex.infr_code (env.contents ex) with
        | (uevts, Except.error e) =>
          (st1, Event.fetchDoc ex :: (evts ++ uevts), Except.error e)
        | (uevts, Except.ok url) =>
          (recordCache st1 ex.infr_code (hashOf env ex),
           Event.fetchDoc ex :: (evts ++ uevts),
           Except.ok (Decision.Upload (hashOf env ex) url))

/-- Outcome of running `process_exams` on a batch: the final inventory
cache, the full event trace, the per-document decisions of the documents
that were processed, and the uncaught exception (if any) that aborted the
batch. -/
structure RunResult where
  state : Cache
  trace : List Event
  outcomes : List (Exam × Decision)
  err : Option Err

/-- `ExamProcessor.process_exams` (processor.py lines 60-168): the
documents are processed strictly in order; an uncaught exception from one
iteration aborts the whole call (it propagates to the caller, which exits:
`__main__.py` lines 108-110), so later documents are not processed. -/
def process_exams (env : Env) (dry_run : Bool) (cont : Option (List String))
    (st : Cache) : List Exam → RunResult
  | [] => ⟨st, [], [], none⟩
  | ex :: rest =>
    match processOne env dry_run cont st ex with
    | (st1, evts, Except.error e) => ⟨st1, evts, [], some e⟩
    | (st1, evts, Except.ok d) =>
      let r := process_exams env dry_run cont st1 rest
      ⟨r.state, evts ++ r.trace, (ex, d) :: r.outcomes, r.err⟩

/-- A fingerprint `h` is recorded in the inventory cache under code `c`. -/
def inCache (st : Cache) (c : String) (h : Hash) : Prop :=
  ∃ hs, st c = some hs ∧ h ∈ hs

/-- Does this decision upload the fingerprint `h`? -/
def isUploadOf (d : Decision) (h : Hash) : Bool :=
  match d with
  | Decision.Upload h' _ => h' == h
  | _ => false

/-- Is this outcome an upload decision of fingerprint `h` for a document
with category code `c`? -/
def uploadMatch (c : String) (h : Hash) (p : Exam × Decision) : Bool :=
  p.1.infr_code == c && isUploadOf p.2 h

/-- Number of processed documents with category code `c` whose decision was
an upload of fingerprint `h`. -/
def countUploads (outs : List (Exam × Decision)) (c : String) (h : Hash) : Nat :=
  (outs.filter (uploadMatch c h)).length

/-!
## SHA-256

The digest algorithm used at processor.py line 186 and filecollection.py
line 104 (`hashlib.sha256(contents).digest()`), implemented from FIPS
180-4 over byte lists so the claims about the fingerprint itself (length,
determinism) are about the real algorithm. 32-bit words are `Nat` reduced
modulo `2^32`.
-/

/-- Reduce to a 32-bit word. -/
def m32 (x : Nat) : Nat := x % 4294967296

/-- Right rotation of a 32-bit word by `n` places. -/
def rotr (n x : Nat) : Nat := m32 ((x >>> n) ||| (x <<< (32 - n)))

/-- Bitwise complement within 32 bits. -/
def not32 (x : Nat) : Nat := x ^^^ 4294967295

/-- FIPS 180-4 `Ch(x,y,z)`. -/
def sha2Ch (x y z : Nat) : Nat := (x &&& y) ^^^ (not32 x &&& z)

/-- FIPS 180-4 `Maj(x,y,z)`. -/
def sha2Maj (x y z : Nat) : Nat := (x &&& y) ^^^ (x &&& z) ^^^ (y &&& z)

/-- FIPS 180-4 `Σ₀`. -/
def bigSigma0 (x : Nat) : Nat := rotr 2 x ^^^ rotr 13 x ^^^ rotr 22 x

/-- FIPS 180-4 `Σ₁`. -/
def bigSigma1 (x : Nat) : Nat := rotr 6 x ^^^ rotr 11 x ^^^ rotr 25 x

/-- FIPS 180-4 `σ₀`. -/
def smallSigma0 (x : Nat) : Nat := rotr 7 x ^^^ rotr 18 x ^^^ (x >>> 3)

/-- FIPS 180-4 `σ₁`. -/
def smallSigma1 (x : Nat) : Nat := rotr 17 x ^^^ rotr 19 x ^^^ (x >>> 10)

/-- The 64 SHA-256 round constants. -/
def sha256K : List Nat :=
  [ 1116352408, 1899447441, 3049323471, 3921009573, 961987163,
    1508970993, 2453635748, 2870763221, 3624381080, 310598401,
    607225278, 1426881987, 1925078388, 2162078206, 2614888103,
    3248222580, 3835390401, 4022224774, 264347078, 604807628,
    770255983, 1249150122, 1555081692, 1996064986, 2554220882,
    2821834349, 2952996808, 3210313671, 3336571891, 3584528711,
    113926993, 338241895, 666307205, 773529912, 1294757372,
    1396182291, 1695183700, 1986661051, 2177026350, 2456956037,
    2730485921, 2820302411, 3259730800, 3345764771, 3516065817,
    3600352804, 4094571909, 275423344, 430227734, 506948616,
    659060556, 883997877, 958139571, 1322822218, 1537002063,
    1747873779, 1955562222, 2024104815, 2227730452, 2361852424,
    2428436474, 2756734187, 3204031479, 3329325298 ]

/-- Working variables of the compression function. -/
structure Sha256State where
  a : Nat
  b : Nat
  c : Nat
  d : Nat
  e : Nat
  f : Nat
  g : Nat
  h : Nat
deriving DecidableEq, Repr

/-- The SHA-256 initial hash value. -/
def sha256Init : Sha256State :=
  ⟨1779033703, 3144134277, 1013904242, 2773480762,
   1359893119, 2600822924, 528734635, 1541459225⟩

/-- 8-byte big-endian encoding of the 64-bit message bit length. -/
def lengthBytes (n : Nat) : List Nat :=
  [ n >>> 56 % 256, n >>> 48 % 256, n >>> 40 % 256, n >>> 32 % 256,
    n >>> 24 % 256, n >>> 16 % 256, n >>> 8 % 256, n % 256 ]

/-- FIPS 180-4 §5.1.1 padding: append `0x80`, then zeros up to 56 mod 64
bytes, then the bit length in 8 big-endian bytes.  Input bytes are reduced
mod 256 so the function is total on `List Nat`. -/
def padMessage (msg : List Nat) : List Nat :=
  msg.map (· % 256) ++ [128] ++
    List.replicate ((119 - msg.length % 64) % 64) 0 ++
    lengthBytes (msg.length * 8)

/-- Group bytes into big-endian 32-bit words (trailing partial group
dropped; padded messages have length a multiple of 4). -/
def bytesToWords : List Nat → List Nat
  | b0 :: b1 :: b2 :: b3 :: rest =>
    ((b0 % 256) * 16777216 + (b1 % 256) * 65536 + (b2 % 256) * 256 + b3 % 256)
      :: bytesToWords rest
  | _ => []

/-- One step of the §6.2 message-schedule extension.  The schedule is kept
newest-first, so `w[t-2]` is entry 1, `w[t-7]` entry 6, `w[t-15]` entry 14
and `w[t-16]` entry 15. -/
def scheduleStep (w : List Nat) : List Nat :=
  m32 (smallSigma1 (w.getD 1 0) + w.getD 6 0 + smallSigma0 (w.getD 14 0) + w.getD 15 0)
    :: w

/-- Iterate the schedule extension `n` times. -/
def extendSchedule : Nat → List Nat → List Nat
  | 0, w => w
  | n + 1, w => extendSchedule n (scheduleStep w)

/-- The full 64-entry message schedule of a 16-word block, oldest first. -/
def messageSchedule (blockWords : List Nat) : List Nat :=
  (extendSchedule 48 blockWords.reverse).reverse

/-- One round of the §6.2.2 compression loop. -/
def sha256Round (s : Sha256State) (kw : Nat × Nat) : Sha256State :=
  let t1 := m32 (s.h + bigSigma1 s.e + sha2Ch s.e s.f s.g + kw.1 + kw.2)
  let t2 := m32 (bigSigma0 s.a + sha2Maj s.a s.b s.c)
  ⟨m32 (t1 + t2), s.a, s.b, s.c, m32 (s.d + t1), s.e, s.f, s.g⟩

/-- Process one 64-byte chunk: run 64 rounds and add the result to the
incoming hash value. -/
def processChunk (st : Sha256State) (chunk : List Nat) : Sha256State :=
  let ws := messageSchedule (bytesToWords chunk)
  let r := (sha256K.zip ws).foldl (fun s kw => sha256Round s (kw.1, kw.2)) st
  ⟨m32 (st.a + r.a), m32 (st.b + r.b), m32 (st.c + r.c), m32 (st.d + r.d),
   m32 (st.e + r.e), m32 (st.f + r.f), m32 (st.g + r.g), m32 (st.h + r.h)⟩

/-- Split a byte list into 64-byte chunks, structurally recursive on a fuel
bound so that it reduces inside the kernel; `l.length` steps always suffice
since every step consumes at least one element. -/
def chunks64Aux : Nat → List Nat → List (List Nat)
  | 0, _ => []
  | _, [] => []
  | n + 1, x :: xs => (x :: xs).take 64 :: chunks64Aux n ((x :: xs).drop 64)

/-- Split a byte list into 64-byte chunks. -/
def chunks64 (l : List Nat) : List (List Nat) := chunks64Aux l.length l

/-- Big-endian bytes of one 32-bit word. -/
def wordBytes (w : Nat) : List Nat :=
  [w >>> 24 % 256, w >>> 16 % 256, w >>> 8 % 256, w % 256]

/-- SHA-256 of a byte string: `hashlib.sha256(msg).digest()`. -/
def sha256 (msg : List Nat) : List Nat :=
  let f := (chunks64 (padMessage msg)).foldl processChunk sha256Init
  wordBytes f.a ++ wordBytes f.b ++ wordBytes f.c ++ wordBytes f.d ++
    wordBytes f.e ++ wordBytes f.f ++ wordBytes f.g ++ wordBytes f.h

/-!
## Concrete test fixtures

Small concrete documents, caches and collaborator environments used to
witness the theorems below on closed inputs.
-/

/-- A concrete candidate document. -/
def exC1a : Exam := ⟨"INFR10079", "Algorithms and Data Structures", "2024", "/a.pdf"⟩

/-- A second document with the same category code but different bytes. -/
def exC1b : Exam := ⟨"INFR10079", "Algorithms and Data Structures resit", "2024", "/b.pdf"⟩

/-- A document whose code starts with the tolerated prefix INFR. -/
def exInfr101 : Exam := ⟨"INFR101", "Introduction", "2024", "/c.pdf"⟩

/-- A document whose code does not start with the tolerated prefix INFR. -/
def exEpcc : Exam := ⟨"EPCC200", "HPC Architectures", "2024", "/d.pdf"⟩

/-- A healthy environment: one category `ads` holding one remote file of
content `[5]`, all requests succeed, the digest is the injective `9 :: ·`. -/
def envHappy : Env where
  contents := fun ex => if ex = exC1b then [2] else [1]
  hash := fun b => 9 :: b
  slugResponse := fun c =>
    if c = "INFR10079" then Except.ok "ads" else Except.error "no category"
  listResponse := fun sl =>
    if sl = "ads" then Except.ok ["old.pdf"] else Except.error "listing failed"
  fileResponse := fun f =>
    if f = "old.pdf" then Except.ok [5] else Except.error "download failed"
  uploadResponse := fun _ _ => Except.ok "new.pdf"

/-- Like `envHappy`, but the remote file of the category has the bytes `[2]`
whose digest is the first known-bad fingerprint — i.e. a known-bad document
still sits in the destination inventory. -/
def envC1 : Env :=
  { envHappy with
    hash := fun b => if b = [2] then knownBad1 else 9 :: b
    fileResponse := fun f =>
      if f = "old.pdf" then Except.ok [2] else Except.error "download failed" }

/-- Like `envHappy`, but every upload POST fails. -/
def envUpFail : Env :=
  { envHappy with uploadResponse := fun _ _ => Except.error "upload failed" }

/-- An environment where no category code resolves. -/
def envResFail : Env :=
  { envHappy with slugResponse := fun _ => Except.error "no category" }

/-- An environment where codes resolve but listing a category fails. -/
def envListFail : Env :=
  { envHappy with
    slugResponse := fun _ => Except.ok "ads"
    listResponse := fun _ => Except.error "listing failed" }

/-- An environment where every document digests to a known-bad fingerprint. -/
def envKB : Env := { envHappy with hash := fun _ => knownBad1 }

/-- An environment where every document digests to the fingerprint already
stored in `stW`. -/
def envDup : Env := { envHappy with hash := fun _ => [9, 5] }

/-- A cache already populated for the category of `exC1a`. -/
def stW : Cache := fun c => if c = "INFR10079" then some [[9, 5]] else none

/-!
## Helper lemmas

Shared facts about the inventory lookup and the per-document step, used by
several of the claim theorems below.
-/

/-- A cache hit answers from the stored list: no events, state unchanged. -/
theorem get_hashes_hit (env : Env) (st : Cache) (code : String) (hs : List Hash)
    (h : st code = some hs) :
    get_hashes_for_infr_code env st code = (st, [], Except.ok hs) := by
  simp [get_hashes_for_infr_code, h]

/-- A successful lookup leaves the returned list stored under the code. -/
theorem get_hashes_ok_stores (env : Env) (st : Cache) (code : String)
    (st1 : Cache) (evts : List Event) (hs : List Hash)
    (h : get_hashes_for_infr_code env st code = (st1, evts, Except.ok hs)) :
    st1 code = some hs := by
  unfold get_hashes_for_infr_code at h
  split at h
  · rename_i hs' hhit
    simp only [Prod.mk.injEq, Except.ok.injEq] at h
    obtain ⟨h1, -, h3⟩ := h
    rw [← h1, hhit, h3]
  · split at h
    · simp at h
    · split at h
      · simp at h
      · rename_i hs2 hcat
        simp only [Prod.mk.injEq, Except.ok.injEq] at h
        obtain ⟨h1, -, h3⟩ := h
        rw [← h1]
        simp [h3]

/-- The lookup never touches entries of other codes, and entries that are
already populated are returned unchanged (population only fills a missing
key). -/
theorem get_hashes_frame (env : Env) (st : Cache) (code : String) :
    (∀ c, c ≠ code → (get_hashes_for_infr_code env st code).1 c = st c) ∧
    (∀ c hs, st c = some hs → (get_hashes_for_infr_code env st code).1 c = some hs) := by
  unfold get_hashes_for_infr_code
  split
  · exact ⟨fun c _ => rfl, fun c hs h => h⟩
  · rename_i hmiss
    split
    · exact ⟨fun c _ => rfl, fun c hs h => h⟩
    · split
      · exact ⟨fun c _ => rfl, fun c hs h => h⟩
      · refine ⟨fun c hc => ?_, fun c hs h => ?_⟩
        · simp [hc]
        · have hc : c ≠ code := fun he => by rw [he, hmiss] at h; exact Option.noConfusion h
          simp [hc, h]

/-- Branch equation: known-bad fingerprint (processor.py lines 101-107). -/
theorem processOne_knownBad (env : Env) (dry : Bool) (cont : Option (List String))
    (st : Cache) (ex : Exam) (hkb : hashOf env ex ∈ known_bad_hashes) :
    processOne env dry cont st ex =
      (st, [Event.fetchDoc ex], Except.ok Decision.SkipKnownBad) := by
  simp [processOne, hkb]

/-- Branch equation: duplicate-check failure under the strict (`None`)
policy (processor.py lines 117-118 and 140). -/
theorem processOne_failStrict (env : Env) (dry : Bool) (st : Cache) (ex : Exam)
    (st1 : Cache) (evts : List Event) (e : Err)
    (hkb : hashOf env ex ∉ known_bad_hashes)
    (hg : get_hashes_for_infr_code env st ex.infr_code = (st1, evts, Except.error e)) :
    processOne env dry none st ex = (st1, Event.fetchDoc ex :: evts, Except.error e) := by
  unfold processOne
  rw [if_neg hkb, hg]

/-- Branch equation: duplicate-check failure with a prefix list and a
matching prefix (processor.py lines 118-139). -/
theorem processOne_failSkip (env : Env) (dry : Bool) (st : Cache) (ex : Exam)
    (ps : List String) (st1 : Cache) (evts : List Event) (e : Err)
    (hkb : hashOf env ex ∉ known_bad_hashes)
    (hg : get_hashes_for_infr_code env st ex.infr_code = (st1, evts, Except.error e))
    (hp : ps.any (fun p => strStartsWith ex.infr_code p) = true) :
    processOne env dry (some ps) st ex =
      (st1,
       Event.fetchDoc ex :: (if ps = [""] then evts ++ [Event.loudSkip ex] else evts),
       Except.ok Decision.SkipUnknownCategory) := by
  unfold processOne
  rw [if_neg hkb, hg]
  simp only [hp, if_true]

/-- Branch equation: duplicate-check failure with a prefix list but no
matching prefix — the exception is re-raised (processor.py line 140). -/
theorem processOne_failNoMatch (env : Env) (dry : Bool) (st : Cache) (ex : Exam)
    (ps : List String) (st1 : Cache) (evts : List Event) (e : Err)
    (hkb : hashOf env ex ∉ known_bad_hashes)
    (hg : get_hashes_for_infr_code env st ex.infr_code = (st1, evts, Except.error e))
    (hp : ps.any (fun p => strStartsWith ex.infr_code p) = false) :
    processOne env dry (some ps) st ex = (st1, Event.fetchDoc ex :: evts, Except.error e) := by
  unfold processOne
  rw [if_neg hkb, hg]
  simp only [hp]
  rfl

/-- Branch equation: fingerprint already present (processor.py lines 112-116). -/
theorem processOne_dup (env : Env) (dry : Bool) (cont : Option (List String))
    (st : Cache) (ex : Exam) (st1 : Cache) (evts : List Event) (hs : List Hash)
    (hkb : hashOf env ex ∉ known_bad_hashes)
    (hg : get_hashes_for_infr_code env st ex.infr_code = (st1, evts, Except.ok hs))
    (hmem : hashOf env ex ∈ hs) :
    processOne env dry cont st ex =
      (st1, Event.fetchDoc ex :: evts, Except.ok Decision.SkipDuplicate) := by
  unfold processOne
  rw [if_neg hkb, hg]
  simp [hmem]

/-- Branch equation: new fingerprint in a dry run (processor.py lines 145-151). -/
theorem processOne_dryRun (env : Env) (cont : Option (List String))
    (st : Cache) (ex : Exam) (st1 : Cache) (evts : List Event) (hs : List Hash)
    (hkb : hashOf env ex ∉ known_bad_hashes)
    (hg : get_hashes_for_infr_code env st ex.infr_code = (st1, evts, Except.ok hs))
    (hmem : hashOf env ex ∉ hs) :
    processOne env true cont st ex =
      (st1, Event.fetchDoc ex :: evts, Except.ok Decision.DryRun) := by
  unfold processOne
  rw [if_neg hkb, hg]
  simp [hmem]

/-- Branch equation: upload attempted but failing — the exception is not
caught (processor.py lines 153-155). -/
theorem processOne_uploadFail (env : Env) (cont : Option (List String))
    (st : Cache) (ex : Exam) (st1 : Cache) (evts uevts : List Event)
    (hs : List Hash) (e : Err)
    (hkb : hashOf env ex ∉ known_bad_hashes)
    (hg : get_hashes_for_infr_code env st ex.infr_code = (st1, evts, Except.ok hs))
    (hmem : hashOf env ex ∉ hs)
    (hu : upload_exam env ex.infr_code (env.contents ex) = (uevts, Except.error e)) :
    processOne env false cont st ex =
      (st1, Event.fetchDoc ex :: (evts ++ uevts), Except.error e) := by
  unfold processOne
  rw [if_neg hkb, hg]
  simp [hmem, hu]

/-- Branch equation: successful upload and record (processor.py lines 153-161). -/
theorem processOne_uploadOk (env : Env) (cont : Option (List String))
    (st : Cache) (ex : Exam) (st1 : Cache) (evts uevts : List Event)
    (hs : List Hash) (url : String)
    (hkb : hashOf env ex ∉ known_bad_hashes)
    (hg : get_hashes_for_infr_code env st ex.infr_code = (st1, evts, Except.ok hs))
    (hmem : hashOf env ex ∉ hs)
    (hu : upload_exam env ex.infr_code (env.contents ex) = (uevts, Except.ok url)) :
    processOne env false cont st ex =
      (recordCache st1 ex.infr_code (hashOf env ex),
       Event.fetchDoc ex :: (evts ++ uevts),
       Except.ok (Decision.Upload (hashOf env ex) url)) := by
  unfold processOne
  rw [if_neg hkb, hg]
  simp [hmem, hu]

/-- Exhaustive case analysis on the outcome of one processing step: every
result of `processOne` arises from exactly one of the eight branches of the
loop body. -/
theorem processOne_elim (env : Env) (dry : Bool) (cont : Option (List String))
    (st : Cache) (ex : Exam)
    (motive : Cache × List Event × Except Err Decision → Prop)
    (case_kb : hashOf env ex ∈ known_bad_hashes →
      motive (st, [Event.fetchDoc ex], Except.ok Decision.SkipKnownBad))
    (case_strict : ∀ st1 evts e, hashOf env ex ∉ known_bad_hashes →
      get_hashes_for_infr_code env st ex.infr_code = (st1, evts, Except.error e) →
      cont = none →
      motive (st1, Event.fetchDoc ex :: evts, Except.error e))
    (case_skip : ∀ st1 evts e ps, hashOf env ex ∉ known_bad_hashes →
      get_hashes_for_infr_code env st ex.infr_code = (st1, evts, Except.error e) →
      cont = some ps → ps.any (fun p => strStartsWith ex.infr_code p) = true →
      motive (st1,
        Event.fetchDoc ex :: (if ps = [""] then evts ++ [Event.loudSkip ex] else evts),
        Except.ok Decision.SkipUnknownCategory))
    (case_nomatch : ∀ st1 evts e ps, hashOf env ex ∉ known_bad_hashes →
      get_hashes_for_infr_code env st ex.infr_code = (st1, evts, Except.error e) →
      cont = some ps → ps.any (fun p => strStartsWith ex.infr_code p) = false →
      motive (st1, Event.fetchDoc ex :: evts, Except.error e))
    (case_dup : ∀ st1 evts hs, hashOf env ex ∉ known_bad_hashes →
      get_hashes_for_infr_code env st ex.infr_code = (st1, evts, Except.ok hs) →
      hashOf env ex ∈ hs →
      motive (st1, Event.fetchDoc ex :: evts, Except.ok Decision.SkipDuplicate))
    (case_dry : ∀ st1 evts hs, hashOf env ex ∉ known_bad_hashes →
      get_hashes_for_infr_code env st ex.infr_code = (st1, evts, Except.ok hs) →
      hashOf env ex ∉ hs → dry = true →
      motive (st1, Event.fetchDoc ex :: evts, Except.ok Decision.DryRun))
    (case_upfail : ∀ st1 evts uevts hs e, hashOf env ex ∉ known_bad_hashes →
      get_hashes_for_infr_code env st ex.infr_code = (st1, evts, Except.ok hs) →
      hashOf env ex ∉ hs → dry = false →
      upload_exam env ex.infr_code (env.contents ex) = (uevts, Except.error e) →
      motive (st1, Event.fetchDoc ex :: (evts ++ uevts), Except.error e))
    (case_upok : ∀ st1 evts uevts hs url, hashOf env ex ∉ known_bad_hashes →
      get_hashes_for_infr_code env st ex.infr_code = (st1, evts, Except.ok hs) →
      hashOf env ex ∉ hs → dry = false →
      upload_exam env ex.infr_code (env.contents ex) = (uevts, Except.ok url) →
      motive (recordCache st1 ex.infr_code (hashOf env ex),
        Event.fetchDoc ex :: (evts ++ uevts),
        Except.ok (Decision.Upload (hashOf env ex) url))) :
    motive (processOne env dry cont st ex) := by
  by_cases hkb : hashOf env ex ∈ known_bad_hashes
  · rw [processOne_knownBad env dry cont st ex hkb]
    exact case_kb hkb
  · rcases hg : get_hashes_for_infr_code env st ex.infr_code with ⟨st1, evts, r⟩
    cases r with
    | error e =>
      cases cont with
      | none =>
        rw [processOne_failStrict env dry st ex st1 evts e hkb hg]
        exact case_strict st1 evts e hkb hg rfl
      | some ps =>
        cases hp : ps.any (fun p => strStartsWith ex.infr_code p) with
        | false =>
          rw [processOne_failNoMatch env dry st ex ps st1 evts e hkb hg hp]
          exact case_nomatch st1 evts e ps hkb hg rfl hp
        | true =>
          rw [processOne_failSkip env dry st ex ps st1 evts e hkb hg hp]
          exact case_skip st1 evts e ps hkb hg rfl hp
    | ok hs =>
      by_cases hm : hashOf env ex ∈ hs
      · rw [processOne_dup env dry cont st ex st1 evts hs hkb hg hm]
        exact case_dup st1 evts hs hkb hg hm
      · cases dry with
        | true =>
          rw [processOne_dryRun env cont st ex st1 evts hs hkb hg hm]
          exact case_dry st1 evts hs hkb hg hm rfl
        | false =>
          rcases hu : upload_exam env ex.infr_code (env.contents ex) with ⟨uevts, ru⟩
          cases ru with
          | error e =>
            rw [processOne_uploadFail env cont st ex st1 evts uevts hs e hkb hg hm hu]
            exact case_upfail st1 evts uevts hs e hkb hg hm rfl hu
          | ok url =>
            rw [processOne_uploadOk env cont st ex st1 evts uevts hs url hkb hg hm hu]
            exact case_upok st1 evts uevts hs url hkb hg hm rfl hu

/-- The first recorded event of every processing step is the fetch of the
document itself: the bytes are downloaded and hashed before any decision. -/
theorem processOne_fetch_first (env : Env) (dry : Bool) (cont : Option (List String))
    (st : Cache) (ex : Exam) :
    ((processOne env dry cont st ex).2.1).head? = some (Event.fetchDoc ex) := by
  refine processOne_elim env dry cont st ex
    (fun r => r.2.1.head? = some (Event.fetchDoc ex)) ?_ ?_ ?_ ?_ ?_ ?_ ?_ ?_
  · intro _; rfl
  · intro _ _ _ _ _ _; rfl
  · intro _ _ _ _ _ _ _ _; rfl
  · intro _ _ _ _ _ _ _ _; rfl
  · intro _ _ _ _ _ _; rfl
  · intro _ _ _ _ _ _ _; rfl
  · intro _ _ _ _ _ _ _ _ _ _; rfl
  · intro _ _ _ _ _ _ _ _ _ _; rfl

/-- A fingerprint recorded under a code stays recorded across one
processing step: cache entries never shrink. -/
theorem processOne_mono (env : Env) (dry : Bool) (cont : Option (List String))
    (st : Cache) (ex : Exam) (c : String) (h : Hash)
    (hm : inCache st c h) :
    inCache (processOne env dry cont st ex).1 c h := by
  obtain ⟨hs, hst, hmem⟩ := hm
  have hpres := (get_hashes_frame env st ex.infr_code).2 c hs hst
  refine processOne_elim env dry cont st ex (fun r => inCache r.1 c h) ?_ ?_ ?_ ?_ ?_ ?_ ?_ ?_
  · intro _; exact ⟨hs, hst, hmem⟩
  · intro st1 evts e _ hg _
    rw [hg] at hpres
    exact ⟨hs, hpres, hmem⟩
  · intro st1 evts e ps _ hg _ _
    rw [hg] at hpres
    exact ⟨hs, hpres, hmem⟩
  · intro st1 evts e ps _ hg _ _
    rw [hg] at hpres
    exact ⟨hs, hpres, hmem⟩
  · intro st1 evts hs1 _ hg _
    rw [hg] at hpres
    exact ⟨hs, hpres, hmem⟩
  · intro st1 evts hs1 _ hg _ _
    rw [hg] at hpres
    exact ⟨hs, hpres, hmem⟩
  · intro st1 evts uevts hs1 e _ hg _ _ _
    rw [hg] at hpres
    exact ⟨hs, hpres, hmem⟩
  · intro st1 evts uevts hs1 url _ hg _ _ _
    rw [hg] at hpres
    have hp2 : st1 c = some hs := hpres
    by_cases hc : c = ex.infr_code
    · subst hc
      exact ⟨hs ++ [hashOf env ex], by simp [recordCache, hp2],
        List.mem_append_left _ hmem⟩
    · exact ⟨hs, by simp [recordCache, hc, hp2], hmem⟩

/-- A document whose fingerprint is already stored under its code is
skipped as a duplicate (when not known-bad), with no remote call and no
state change: the lookup is answered from the cache. -/
theorem processOne_present_dup (env : Env) (dry : Bool) (cont : Option (List String))
    (st : Cache) (ex : Exam) (hs : List Hash)
    (hst : st ex.infr_code = some hs) (hmem : hashOf env ex ∈ hs)
    (hkb : hashOf env ex ∉ known_bad_hashes) :
    processOne env dry cont st ex =
      (st, [Event.fetchDoc ex], Except.ok Decision.SkipDuplicate) :=
  processOne_dup env dry cont st ex st [] hs hkb (get_hashes_hit env st _ hs hst) hmem

/-- A document whose fingerprint is already stored under its code never
uploads, whether or not the fingerprint is known-bad. -/
theorem processOne_present_noUpload (env : Env) (dry : Bool) (cont : Option (List String))
    (st : Cache) (ex : Exam) (h : Hash)
    (hc : inCache st ex.infr_code h) (hh : hashOf env ex = h) :
    ∀ h' url, (processOne env dry cont st ex).2.2 ≠ Except.ok (Decision.Upload h' url) := by
  obtain ⟨hs, hst, hmem⟩ := hc
  intro h' url
  by_cases hkb : hashOf env ex ∈ known_bad_hashes
  · rw [processOne_knownBad env dry cont st ex hkb]
    simp
  · rw [processOne_present_dup env dry cont st ex hs hst (hh ▸ hmem) hkb]
    simp

/-- An upload decision records exactly the document's own fingerprint; in
particular the fingerprint is stored under the document's code afterwards. -/
theorem processOne_upload_records (env : Env) (dry : Bool) (cont : Option (List String))
    (st : Cache) (ex : Exam) (h : Hash) (url : String)
    (hd : (processOne env dry cont st ex).2.2 = Except.ok (Decision.Upload h url)) :
    h = hashOf env ex ∧ inCache (processOne env dry cont st ex).1 ex.infr_code h := by
  refine processOne_elim env dry cont st ex
    (fun r => r.2.2 = Except.ok (Decision.Upload h url) →
      h = hashOf env ex ∧ inCache r.1 ex.infr_code h) ?_ ?_ ?_ ?_ ?_ ?_ ?_ ?_ hd
  · intro _ hc; simp at hc
  · intro _ _ _ _ _ _ hc; simp at hc
  · intro _ _ _ _ _ _ _ _ hc; simp at hc
  · intro _ _ _ _ _ _ _ _ hc; simp at hc
  · intro _ _ _ _ _ _ hc; simp at hc
  · intro _ _ _ _ _ _ _ hc; simp at hc
  · intro _ _ _ _ _ _ _ _ _ _ hc; simp at hc
  · intro st1 evts uevts hs1 url1 _ hg _ _ _ hc
    simp only [Except.ok.injEq, Decision.Upload.injEq] at hc
    obtain ⟨hh, -⟩ := hc
    refine ⟨hh.symm, ?_⟩
    have hstore := get_hashes_ok_stores env st ex.infr_code st1 evts hs1 hg
    exact ⟨hs1 ++ [hashOf env ex], by simp [recordCache, hstore], by simp [hh.symm]⟩

/-- Batch equation: the empty batch does nothing. -/
theorem process_exams_nil (env : Env) (dry : Bool) (cont : Option (List String))
    (st : Cache) : process_exams env dry cont st [] = ⟨st, [], [], none⟩ := rfl

/-- Batch equation: one unfolding of the processing loop. -/
theorem process_exams_cons (env : Env) (dry : Bool) (cont : Option (List String))
    (st : Cache) (ex : Exam) (rest : List Exam) :
    process_exams env dry cont st (ex :: rest) =
      match processOne env dry cont st ex with
      | (st1, evts, Except.error e) => ⟨st1, evts, [], some e⟩
      | (st1, evts, Except.ok d) =>
        let r := process_exams env dry cont st1 rest
        ⟨r.state, evts ++ r.trace, (ex, d) :: r.outcomes, r.err⟩ := rfl

/-- Batch equation: an uncaught exception in the first document aborts the
batch — no decision is recorded for it and no later document is touched. -/
theorem process_exams_cons_err (env : Env) (dry : Bool) (cont : Option (List String))
    (st : Cache) (ex : Exam) (rest : List Exam)
    (st1 : Cache) (evts : List Event) (e : Err)
    (hp : processOne env dry cont st ex = (st1, evts, Except.error e)) :
    process_exams env dry cont st (ex :: rest) = ⟨st1, evts, [], some e⟩ := by
  rw [process_exams_cons, hp]

/-- Batch equation: a decided document contributes its outcome and the
batch continues from the updated state. -/
theorem process_exams_cons_ok (env : Env) (dry : Bool) (cont : Option (List String))
    (st : Cache) (ex : Exam) (rest : List Exam)
    (st1 : Cache) (evts : List Event) (d : Decision)
    (hp : processOne env dry cont st ex = (st1, evts, Except.ok d)) :
    process_exams env dry cont st (ex :: rest) =
      ⟨(process_exams env dry cont st1 rest).state,
       evts ++ (process_exams env dry cont st1 rest).trace,
       (ex, d) :: (process_exams env dry cont st1 rest).outcomes,
       (process_exams env dry cont st1 rest).err⟩ := by
  rw [process_exams_cons, hp]

/-- Counting uploads: a non-matching outcome does not count. -/
theorem countUploads_cons_false (p : Exam × Decision) (outs : List (Exam × Decision))
    (c : String) (h : Hash) (hp : uploadMatch c h p = false) :
    countUploads (p :: outs) c h = countUploads outs c h := by
  simp [countUploads, List.filter, hp]

/-- Counting uploads: a matching outcome counts once. -/
theorem countUploads_cons_true (p : Exam × Decision) (outs : List (Exam × Decision))
    (c : String) (h : Hash) (hp : uploadMatch c h p = true) :
    countUploads (p :: outs) c h = countUploads outs c h + 1 := by
  simp [countUploads, List.filter, hp]

/-- A fingerprint recorded under a code stays recorded for the rest of the
batch. -/
theorem process_exams_mono (env : Env) (dry : Bool) (cont : Option (List String))
    (c : String) (h : Hash) :
    ∀ exams st, inCache st c h → inCache (process_exams env dry cont st exams).state c h := by
  intro exams
  induction exams with
  | nil => intro st hm; exact hm
  | cons ex rest ih =>
    intro st hm
    have hmono := processOne_mono env dry cont st ex c h hm
    rcases hp : processOne env dry cont st ex with ⟨st1, evts, r⟩
    rw [hp] at hmono
    cases r with
    | error e =>
      rw [process_exams_cons_err env dry cont st ex rest st1 evts e hp]
      exact hmono
    | ok d =>
      rw [process_exams_cons_ok env dry cont st ex rest st1 evts d hp]
      exact ih st1 hmono

/-- Once a fingerprint is recorded under a code, no document of the rest of
the batch with that code uploads that fingerprint. -/
theorem process_exams_present_noUploads (env : Env) (dry : Bool)
    (cont : Option (List String)) (c : String) (h : Hash) :
    ∀ exams st, inCache st c h →
      countUploads (process_exams env dry cont st exams).outcomes c h = 0 := by
  intro exams
  induction exams with
  | nil => intro st _; rfl
  | cons ex rest ih =>
    intro st hm
    rcases hp : processOne env dry cont st ex with ⟨st1, evts, r⟩
    cases r with
    | error e =>
      rw [process_exams_cons_err env dry cont st ex rest st1 evts e hp]
      rfl
    | ok d =>
      rw [process_exams_cons_ok env dry cont st ex rest st1 evts d hp]
      have hmono := processOne_mono env dry cont st ex c h hm
      rw [hp] at hmono
      have hrest := ih st1 hmono
      have hpred : uploadMatch c h (ex, d) = false := by
        cases d with
        | Upload h' url =>
          by_cases hcode : ex.infr_code = c
          · by_cases hheq : h' = h
            · exfalso
              subst hheq
              have hrec := processOne_upload_records env dry cont st ex h' url (by rw [hp])
              exact processOne_present_noUpload env dry cont st ex h'
                (hcode ▸ hm) hrec.1.symm h' url (by rw [hp])
            · simp [uploadMatch, isUploadOf, hheq]
          · simp [uploadMatch, hcode]
        | SkipDuplicate => simp [uploadMatch, isUploadOf]
        | SkipKnownBad => simp [uploadMatch, isUploadOf]
        | SkipUnknownCategory => simp [uploadMatch, isUploadOf]
        | DryRun => simp [uploadMatch, isUploadOf]
      rw [countUploads_cons_false _ _ _ _ hpred]
      exact hrest

/-- At-most-once: over any batch, at most one document with a given code
uploads a given fingerprint. -/
theorem process_exams_atMostOnce (env : Env) (dry : Bool)
    (cont : Option (List String)) (c : String) (h : Hash) :
    ∀ exams st, countUploads (process_exams env dry cont st exams).outcomes c h ≤ 1 := by
  intro exams
  induction exams with
  | nil => intro st; exact Nat.zero_le 1
  | cons ex rest ih =>
    intro st
    rcases hp : processOne env dry cont st ex with ⟨st1, evts, r⟩
    cases r with
    | error e =>
      rw [process_exams_cons_err env dry cont st ex rest st1 evts e hp]
      exact Nat.zero_le 1
    | ok d =>
      rw [process_exams_cons_ok env dry cont st ex rest st1 evts d hp]
      by_cases hpred : uploadMatch c h (ex, d) = true
      · rw [countUploads_cons_true _ _ _ _ hpred]
        have hd : ∃ url, d = Decision.Upload h url ∧ ex.infr_code = c := by
          cases d with
          | Upload h' url =>
            simp only [uploadMatch, isUploadOf, Bool.and_eq_true, beq_iff_eq] at hpred
            exact ⟨url, by rw [hpred.2], hpred.1⟩
          | SkipDuplicate => simp [uploadMatch, isUploadOf] at hpred
          | SkipKnownBad => simp [uploadMatch, isUploadOf] at hpred
          | SkipUnknownCategory => simp [uploadMatch, isUploadOf] at hpred
          | DryRun => simp [uploadMatch, isUploadOf] at hpred
        obtain ⟨url, hdu, hcode⟩ := hd
        subst hdu
        have hrec := processOne_upload_records env dry cont st ex h url (by rw [hp])
        have hmem1 : inCache st1 c h := by
          have := hrec.2
          rw [hp] at this
          exact hcode ▸ this
        have h0 := process_exams_present_noUploads env dry cont c h rest st1 hmem1
        omega
      · rw [countUploads_cons_false _ _ _ _ (Bool.eq_false_iff.mpr hpred)]
        exact ih st1

/-- Hashing the existing files of a category performs only per-file
downloads: never an upload POST. -/
theorem hashExistingFiles_no_uploadCall (env : Env) :
    ∀ files s b, Event.uploadCall s b ∉ (hashExistingFiles env files).1 := by
  intro files
  induction files with
  | nil => intro s b h; simp [hashExistingFiles] at h
  | cons f fs ih =>
    intro s b h
    simp only [hashExistingFiles] at h
    cases hr : env.fileResponse f with
    | error e =>
      rw [hr] at h
      simp at h
    | ok cbytes =>
      rw [hr] at h
      rcases List.mem_cons.mp h with h1 | h2
      · exact Event.noConfusion h1
      · exact ih s b h2

/-- On success, hashing the existing files downloads each of them, in
order: the trace is exactly one fetch per listed file. -/
theorem hashExistingFiles_ok_trace (env : Env) :
    ∀ files hs, (hashExistingFiles env files).2 = Except.ok hs →
      (hashExistingFiles env files).1 = files.map Event.fetchExisting := by
  intro files
  induction files with
  | nil => intro hs _; rfl
  | cons f fs ih =>
    intro hs h
    cases hr : env.fileResponse f with
    | error e =>
      simp only [hashExistingFiles, hr] at h
      simp at h
    | ok cbytes =>
      simp only [hashExistingFiles, hr] at h ⊢
      simp only [List.map_cons, List.cons.injEq, true_and]
      cases hrec : (hashExistingFiles env fs).2 with
      | error e => rw [hrec] at h; simp [Except.map] at h
      | ok hs2 => exact ih hs2 hrec

/-- Listing and hashing a category never performs an upload POST. -/
theorem get_hashes_for_category_no_uploadCall (env : Env) (slug : String) :
    ∀ s b, Event.uploadCall s b ∉ (get_hashes_for_category env slug).1 := by
  intro s b h
  unfold get_hashes_for_category at h
  split at h
  · simp at h
  · rename_i files hlist
    have h2 : Event.uploadCall s b ∈ Event.listCat slug :: (hashExistingFiles env files).1 := h
    rcases List.mem_cons.mp h2 with h3 | h4
    · exact Event.noConfusion h3
    · exact hashExistingFiles_no_uploadCall env files s b h4

/-- The inventory lookup never performs an upload POST. -/
theorem get_hashes_no_uploadCall (env : Env) (st : Cache) (code : String) :
    ∀ s b, Event.uploadCall s b ∉ (get_hashes_for_infr_code env st code).2.1 := by
  intro s b h
  unfold get_hashes_for_infr_code at h
  split at h
  · simp at h
  · split at h
    · simp at h
    · rename_i slug hslug
      split at h
      · rename_i evts e hcat
        have h1 : Event.uploadCall s b ∈ Event.resolveCat code :: evts := h
        rcases List.mem_cons.mp h1 with h2 | h3
        · exact Event.noConfusion h2
        · have hevts : (get_hashes_for_category env slug).1 = evts := by rw [hcat]
          exact get_hashes_for_category_no_uploadCall env slug s b (hevts ▸ h3)
      · rename_i evts hs2 hcat
        have h1 : Event.uploadCall s b ∈ Event.resolveCat code :: evts := h
        rcases List.mem_cons.mp h1 with h2 | h3
        · exact Event.noConfusion h2
        · have hevts : (get_hashes_for_category env slug).1 = evts := by rw [hcat]
          exact get_hashes_for_category_no_uploadCall env slug s b (hevts ▸ h3)

/-- In a dry run, one processing step never performs the upload POST, and
every already-populated inventory entry is returned unchanged — `record`
never runs. -/
theorem processOne_dry_pure (env : Env) (cont : Option (List String))
    (st : Cache) (ex : Exam) :
    (∀ s b, Event.uploadCall s b ∉ (processOne env true cont st ex).2.1) ∧
    (∀ c hs, st c = some hs → (processOne env true cont st ex).1 c = some hs) := by
  refine processOne_elim env true cont st ex
    (fun r => (∀ s b, Event.uploadCall s b ∉ r.2.1) ∧
      (∀ c hs, st c = some hs → r.1 c = some hs)) ?_ ?_ ?_ ?_ ?_ ?_ ?_ ?_
  · intro _
    refine ⟨fun s b h => ?_, fun c hs h => h⟩
    rcases List.mem_cons.mp h with h1 | h2
    · exact Event.noConfusion h1
    · simp at h2
  · intro st1 evts e _ hg _
    have hevts : evts = (get_hashes_for_infr_code env st ex.infr_code).2.1 := by rw [hg]
    have hst1 : st1 = (get_hashes_for_infr_code env st ex.infr_code).1 := by rw [hg]
    refine ⟨fun s b h => ?_, fun c hs h => ?_⟩
    · rcases List.mem_cons.mp h with h1 | h2
      · exact Event.noConfusion h1
      · exact get_hashes_no_uploadCall env st ex.infr_code s b (hevts ▸ h2)
    · rw [hst1]
      exact (get_hashes_frame env st ex.infr_code).2 c hs h
  · intro st1 evts e ps _ hg _ _
    have hevts : evts = (get_hashes_for_infr_code env st ex.infr_code).2.1 := by rw [hg]
    have hst1 : st1 = (get_hashes_for_infr_code env st ex.infr_code).1 := by rw [hg]
    refine ⟨fun s b h => ?_, fun c hs h => ?_⟩
    · rcases List.mem_cons.mp h with h1 | h2
      · exact Event.noConfusion h1
      · by_cases hps : ps = [""]
        · rw [if_pos hps] at h2
          rcases List.mem_append.mp h2 with h3 | h4
          · exact get_hashes_no_uploadCall env st ex.infr_code s b (hevts ▸ h3)
          · simp at h4
        · rw [if_neg hps] at h2
          exact get_hashes_no_uploadCall env st ex.infr_code s b (hevts ▸ h2)
    · rw [hst1]
      exact (get_hashes_frame env st ex.infr_code).2 c hs h
  · intro st1 evts e ps _ hg _ _
    have hevts : evts = (get_hashes_for_infr_code env st ex.infr_code).2.1 := by rw [hg]
    have hst1 : st1 = (get_hashes_for_infr_code env st ex.infr_code).1 := by rw [hg]
    refine ⟨fun s b h => ?_, fun c hs h => ?_⟩
    · rcases List.mem_cons.mp h with h1 | h2
      · exact Event.noConfusion h1
      · exact get_hashes_no_uploadCall env st ex.infr_code s b (hevts ▸ h2)
    · rw [hst1]
      exact (get_hashes_frame env st ex.infr_code).2 c hs h
  · intro st1 evts hs1 _ hg _
    have hevts : evts = (get_hashes_for_infr_code env st ex.infr_code).2.1 := by rw [hg]
    have hst1 : st1 = (get_hashes_for_infr_code env st ex.infr_code).1 := by rw [hg]
    refine ⟨fun s b h => ?_, fun c hs h => ?_⟩
    · rcases List.mem_cons.mp h with h1 | h2
      · exact Event.noConfusion h1
      · exact get_hashes_no_uploadCall env st ex.infr_code s b (hevts ▸ h2)
    · rw [hst1]
      exact (get_hashes_frame env st ex.infr_code).2 c hs h
  · intro st1 evts hs1 _ hg _ _
    have hevts : evts = (get_hashes_for_infr_code env st ex.infr_code).2.1 := by rw [hg]
    have hst1 : st1 = (get_hashes_for_infr_code env st ex.infr_code).1 := by rw [hg]
    refine ⟨fun s b h => ?_, fun c hs h => ?_⟩
    · rcases List.mem_cons.mp h with h1 | h2
      · exact Event.noConfusion h1
      · exact get_hashes_no_uploadCall env st ex.infr_code s b (hevts ▸ h2)
    · rw [hst1]
      exact (get_hashes_frame env st ex.infr_code).2 c hs h
  · intro _ _ _ _ _ _ _ _ hdry _
    exact absurd hdry (by simp)
  · intro _ _ _ _ _ _ _ _ hdry _
    exact absurd hdry (by simp)

/-- In a dry run, a whole batch never performs the upload POST and every
already-populated inventory entry survives unchanged. -/
theorem process_exams_dry_pure (env : Env) (cont : Option (List String)) :
    ∀ exams st,
      (∀ s b, Event.uploadCall s b ∉ (process_exams env true cont st exams).trace) ∧
      (∀ c hs, st c = some hs → (process_exams env true cont st exams).state c = some hs) := by
  intro exams
  induction exams with
  | nil =>
    intro st
    exact ⟨fun s b h => by simp [process_exams_nil] at h, fun c hs h => h⟩
  | cons ex rest ih =>
    intro st
    have hstep := processOne_dry_pure env cont st ex
    rcases hp : processOne env true cont st ex with ⟨st1, evts, r⟩
    rw [hp] at hstep
    cases r with
    | error e =>
      rw [process_exams_cons_err env true cont st ex rest st1 evts e hp]
      exact ⟨hstep.1, hstep.2⟩
    | ok d =>
      rw [process_exams_cons_ok env true cont st ex rest st1 evts d hp]
      refine ⟨fun s b h => ?_, fun c hs h => ?_⟩
      · rcases List.mem_append.mp h with h1 | h2
        · exact hstep.1 s b h1
        · exact (ih st1).1 s b h2
      · exact (ih st1).2 c hs (hstep.2 c hs h)

/-- One processing step only ever touches the inventory entry of the
document's own category code. -/
theorem processOne_frame (env : Env) (dry : Bool) (cont : Option (List String))
    (st : Cache) (ex : Exam) :
    ∀ c, c ≠ ex.infr_code → (processOne env dry cont st ex).1 c = st c := by
  intro c hc
  refine processOne_elim env dry cont st ex (fun r => r.1 c = st c) ?_ ?_ ?_ ?_ ?_ ?_ ?_ ?_
  · intro _; rfl
  · intro st1 evts e _ hg _
    have hst1 : st1 = (get_hashes_for_infr_code env st ex.infr_code).1 := by rw [hg]
    rw [hst1]
    exact (get_hashes_frame env st ex.infr_code).1 c hc
  · intro st1 evts e ps _ hg _ _
    have hst1 : st1 = (get_hashes_for_infr_code env st ex.infr_code).1 := by rw [hg]
    rw [hst1]
    exact (get_hashes_frame env st ex.infr_code).1 c hc
  · intro st1 evts e ps _ hg _ _
    have hst1 : st1 = (get_hashes_for_infr_code env st ex.infr_code).1 := by rw [hg]
    rw [hst1]
    exact (get_hashes_frame env st ex.infr_code).1 c hc
  · intro st1 evts hs1 _ hg _
    have hst1 : st1 = (get_hashes_for_infr_code env st ex.infr_code).1 := by rw [hg]
    rw [hst1]
    exact (get_hashes_frame env st ex.infr_code).1 c hc
  · intro st1 evts hs1 _ hg _ _
    have hst1 : st1 = (get_hashes_for_infr_code env st ex.infr_code).1 := by rw [hg]
    rw [hst1]
    exact (get_hashes_frame env st ex.infr_code).1 c hc
  · intro st1 evts uevts hs1 e _ hg _ _ _
    have hst1 : st1 = (get_hashes_for_infr_code env st ex.infr_code).1 := by rw [hg]
    rw [hst1]
    exact (get_hashes_frame env st ex.infr_code).1 c hc
  · intro st1 evts uevts hs1 url _ hg _ _ _
    have hst1 : st1 = (get_hashes_for_infr_code env st ex.infr_code).1 := by rw [hg]
    show recordCache st1 ex.infr_code (hashOf env ex) c = st c
    have hrec : recordCache st1 ex.infr_code (hashOf env ex) c = st1 c := by
      simp [recordCache, hc]
    rw [hrec, hst1]
    exact (get_hashes_frame env st ex.infr_code).1 c hc

/-- Inventory entries only ever grow during one processing step. -/
theorem processOne_grow (env : Env) (dry : Bool) (cont : Option (List String))
    (st : Cache) (ex : Exam) :
    ∀ c hs, st c = some hs → ∃ t, (processOne env dry cont st ex).1 c = some (hs ++ t) := by
  intro c hs hc
  have hpres := (get_hashes_frame env st ex.infr_code).2 c hs hc
  refine processOne_elim env dry cont st ex
    (fun r => ∃ t, r.1 c = some (hs ++ t)) ?_ ?_ ?_ ?_ ?_ ?_ ?_ ?_
  · intro _; exact ⟨[], by simp [hc]⟩
  · intro st1 evts e _ hg _
    rw [hg] at hpres
    exact ⟨[], by simpa using hpres⟩
  · intro st1 evts e ps _ hg _ _
    rw [hg] at hpres
    exact ⟨[], by simpa using hpres⟩
  · intro st1 evts e ps _ hg _ _
    rw [hg] at hpres
    exact ⟨[], by simpa using hpres⟩
  · intro st1 evts hs1 _ hg _
    rw [hg] at hpres
    exact ⟨[], by simpa using hpres⟩
  · intro st1 evts hs1 _ hg _ _
    rw [hg] at hpres
    exact ⟨[], by simpa using hpres⟩
  · intro st1 evts uevts hs1 e _ hg _ _ _
    rw [hg] at hpres
    exact ⟨[], by simpa using hpres⟩
  · intro st1 evts uevts hs1 url _ hg _ _ _
    rw [hg] at hpres
    have hp2 : st1 c = some hs := hpres
    by_cases hcode : c = ex.infr_code
    · have hp3 : st1 ex.infr_code = some hs := hcode ▸ hp2
      exact ⟨[hashOf env ex], by simp [recordCache, hcode, hp3]⟩
    · exact ⟨[], by simp [recordCache, hcode, hp2]⟩

/-- Inventory entries only ever grow over a whole batch. -/
theorem process_exams_grow (env : Env) (dry : Bool) (cont : Option (List String)) :
    ∀ exams st c hs, st c = some hs →
      ∃ t, (process_exams env dry cont st exams).state c = some (hs ++ t) := by
  intro exams
  induction exams with
  | nil => intro st c hs hc; exact ⟨[], by simpa [process_exams_nil] using hc⟩
  | cons ex rest ih =>
    intro st c hs hc
    obtain ⟨t1, hstep⟩ := processOne_grow env dry cont st ex c hs hc
    rcases hp : processOne env dry cont st ex with ⟨st1, evts, r⟩
    rw [hp] at hstep
    cases r with
    | error e =>
      rw [process_exams_cons_err env dry cont st ex rest st1 evts e hp]
      exact ⟨t1, hstep⟩
    | ok d =>
      rw [process_exams_cons_ok env dry cont st ex rest st1 evts d hp]
      obtain ⟨t2, hrun⟩ := ih st1 c (hs ++ t1) hstep
      exact ⟨t1 ++ t2, by rw [hrun, List.append_assoc]⟩

/-- Every event of a per-file hashing pass is a fetch of an existing file. -/
theorem hashExistingFiles_trace_shape (env : Env) :
    ∀ files ev, ev ∈ (hashExistingFiles env files).1 → ∃ f, ev = Event.fetchExisting f := by
  intro files
  induction files with
  | nil => intro ev h; simp [hashExistingFiles] at h
  | cons f fs ih =>
    intro ev h
    cases hr : env.fileResponse f with
    | error e =>
      simp only [hashExistingFiles, hr] at h
      simp at h
      exact ⟨f, h⟩
    | ok cbytes =>
      simp only [hashExistingFiles, hr] at h
      rcases List.mem_cons.mp h with h1 | h2
      · exact ⟨f, h1⟩
      · exact ih ev h2

/-- Every event of an inventory lookup is a category resolution, a listing,
or a fetch of an existing file — never a document fetch, upload POST or
loud-skip message. -/
theorem get_hashes_trace_shape (env : Env) (st : Cache) (code : String) :
    ∀ ev ∈ (get_hashes_for_infr_code env st code).2.1,
      (∃ c, ev = Event.resolveCat c) ∨ (∃ sl, ev = Event.listCat sl) ∨
      (∃ f, ev = Event.fetchExisting f) := by
  intro ev h
  unfold get_hashes_for_infr_code at h
  split at h
  · simp at h
  · split at h
    · simp at h
      exact Or.inl ⟨code, h⟩
    · rename_i slug hslug
      have hcatshape : ∀ ev2 ∈ (get_hashes_for_category env slug).1,
          (∃ sl, ev2 = Event.listCat sl) ∨ (∃ f, ev2 = Event.fetchExisting f) := by
        intro ev2 h2
        unfold get_hashes_for_category at h2
        split at h2
        · simp at h2
          exact Or.inl ⟨slug, h2⟩
        · rename_i files hlist
          have h3 : ev2 ∈ Event.listCat slug :: (hashExistingFiles env files).1 := h2
          rcases List.mem_cons.mp h3 with h4 | h5
          · exact Or.inl ⟨slug, h4⟩
          · exact Or.inr (hashExistingFiles_trace_shape env files ev2 h5)
      split at h
      · rename_i evts e hcat
        have h1 : ev ∈ Event.resolveCat code :: evts := h
        rcases List.mem_cons.mp h1 with h2 | h3
        · exact Or.inl ⟨code, h2⟩
        · have hevts : (get_hashes_for_category env slug).1 = evts := by rw [hcat]
          exact Or.inr (hcatshape ev (hevts ▸ h3))
      · rename_i evts hs2 hcat
        have h1 : ev ∈ Event.resolveCat code :: evts := h
        rcases List.mem_cons.mp h1 with h2 | h3
        · exact Or.inl ⟨code, h2⟩
        · have hevts : (get_hashes_for_category env slug).1 = evts := by rw [hcat]
          exact Or.inr (hcatshape ev (hevts ▸ h3))

/-- Every event of an upload attempt is a category resolution or the upload
POST itself. -/
theorem upload_exam_trace_shape (env : Env) (code : String) (b : Bytes) :
    ∀ ev ∈ (upload_exam env code b).1,
      (∃ c, ev = Event.resolveCat c) ∨ (∃ sl bb, ev = Event.uploadCall sl bb) := by
  intro ev h
  unfold upload_exam at h
  split at h
  · simp at h
    exact Or.inl ⟨code, h⟩
  · rename_i slug hslug
    split at h
    · simp at h
      rcases h with h1 | h2
      · exact Or.inl ⟨code, h1⟩
      · exact Or.inr ⟨slug, b, h2⟩
    · simp at h
      rcases h with h1 | h2
      · exact Or.inl ⟨code, h1⟩
      · exact Or.inr ⟨slug, b, h2⟩

/-- An upload decision appends exactly the uploaded fingerprint to the
looked-up list of the document's category. -/
theorem processOne_upload_appends (env : Env) (dry : Bool) (cont : Option (List String))
    (st : Cache) (ex : Exam) (h : Hash) (url : String) (hs : List Hash)
    (hd : (processOne env dry cont st ex).2.2 = Except.ok (Decision.Upload h url))
    (hget : (get_hashes_for_infr_code env st ex.infr_code).2.2 = Except.ok hs) :
    (processOne env dry cont st ex).1 ex.infr_code = some (hs ++ [h]) := by
  refine processOne_elim env dry cont st ex
    (fun r => r.2.2 = Except.ok (Decision.Upload h url) →
      r.1 ex.infr_code = some (hs ++ [h])) ?_ ?_ ?_ ?_ ?_ ?_ ?_ ?_ hd
  · intro _ hc; simp at hc
  · intro _ _ _ _ _ _ hc; simp at hc
  · intro _ _ _ _ _ _ _ _ hc; simp at hc
  · intro _ _ _ _ _ _ _ _ hc; simp at hc
  · intro _ _ _ _ _ _ hc; simp at hc
  · intro _ _ _ _ _ _ _ hc; simp at hc
  · intro _ _ _ _ _ _ _ _ _ _ hc; simp at hc
  · intro st1 evts uevts hs1 url1 _ hg _ _ _ hc
    simp only [Except.ok.injEq, Decision.Upload.injEq] at hc
    have hhs : hs1 = hs := by
      have h2 := hget
      rw [hg] at h2
      have h3 : Except.ok hs1 = Except.ok hs := h2
      injection h3
    have hstore := get_hashes_ok_stores env st ex.infr_code st1 evts hs1 hg
    show recordCache st1 ex.infr_code (hashOf env ex) ex.infr_code = some (hs ++ [h])
    rw [hc.1]
    simp [recordCache, hstore, hhs]

/-!
## Claim theorems
-/

/-- FIPS 180-4 test vector: `sha256` on the bytes of `"abc"` yields the
standard digest, validating the embedding of the digest algorithm. -/
theorem sha256_abc_vector :
    sha256 [97, 98, 99] =
      [186, 120, 22, 191, 143, 1, 207, 234, 65, 65, 64, 222, 93, 174, 34, 35,
       176, 3, 97, 163, 150, 23, 122, 156, 180, 16, 255, 97, 242, 0, 21, 173] := by
  decide

/-- FIPS 180-4 test vector: `sha256` of the empty message. -/
theorem sha256_empty_vector :
    sha256 [] =
      [227, 176, 196, 66, 152, 252, 28, 20, 154, 251, 244, 200, 153, 111, 185, 36,
       39, 174, 65, 228, 100, 155, 147, 76, 164, 149, 153, 27, 120, 82, 184, 85] := by
  decide

/-- C2.  Known-bad precedence: a document whose fingerprint is in the
known-bad set is decided `SkipKnownBad` with the state unchanged and a
trace containing only the document fetch — in particular no
category-resolution call, no inventory listing and no upload POST are
performed, for every environment (hence even when the document's category
code is unresolvable). -/
theorem known_bad_precedence (env : Env) (dry : Bool) (cont : Option (List String))
    (st : Cache) (ex : Exam) (hkb : hashOf env ex ∈ known_bad_hashes) :
    processOne env dry cont st ex
        = (st, [Event.fetchDoc ex], Except.ok Decision.SkipKnownBad) ∧
    (∀ c, Event.resolveCat c ∉ (processOne env dry cont st ex).2.1) ∧
    (∀ sl, Event.listCat sl ∉ (processOne env dry cont st ex).2.1) ∧
    (∀ sl b, Event.uploadCall sl b ∉ (processOne env dry cont st ex).2.1) := by
  have he := processOne_knownBad env dry cont st ex hkb
  refine ⟨he, fun c hc => ?_, fun sl hc => ?_, fun sl b hc => ?_⟩ <;> rw [he] at hc <;> simp at hc

/-- Witness for C2: in the environment where every document digests to the
first known-bad fingerprint, a concrete document is skipped as known-bad
with only its fetch in the trace. -/
theorem known_bad_precedence_witness :
    processOne envKB false none initCache exC1a
      = (initCache, [Event.fetchDoc exC1a], Except.ok Decision.SkipKnownBad) :=
  (known_bad_precedence envKB false none initCache exC1a (by decide)).1

/-- C4.  Dry-run purity: a batch processed with `dry_run = true` never
issues an upload POST, and every inventory entry that is already populated
survives the whole batch unchanged — the cache is mutated only by
first-lookup population, never by the post-upload record step. -/
theorem dry_run_purity (env : Env) (cont : Option (List String)) (st : Cache)
    (exams : List Exam) :
    (∀ s b, Event.uploadCall s b ∉ (process_exams env true cont st exams).trace) ∧
    (∀ c hs, st c = some hs → (process_exams env true cont st exams).state c = some hs) :=
  process_exams_dry_pure env cont exams st

/-- Witness for C4: a concrete dry run over a populated cache issues no
upload POST and leaves the populated entry untouched. -/
theorem dry_run_purity_witness :
    Event.uploadCall "ads" [1] ∉ (process_exams envHappy true none stW [exC1a]).trace ∧
    (process_exams envHappy true none stW [exC1a]).state "INFR10079" = some [[9, 5]] :=
  ⟨(dry_run_purity envHappy none stW [exC1a]).1 "ads" [1],
   (dry_run_purity envHappy none stW [exC1a]).2 "INFR10079" [[9, 5]] (by decide)⟩

/-- C8.  Fingerprint-first ordering: the very first recorded event of every
processing step — whatever the later decision — is the fetch of the
document itself, whose bytes the fingerprint is computed from; and the
digest algorithm (`sha256`, the embedding of `hashlib.sha256(...).digest()`)
always produces a 32-byte digest and gives equal fingerprints to equal
bytes. -/
theorem fingerprint_first :
    (∀ (env : Env) (dry : Bool) (cont : Option (List String)) (st : Cache) (ex : Exam),
      ((processOne env dry cont st ex).2.1).head? = some (Event.fetchDoc ex)) ∧
    (∀ m : List Nat, (sha256 m).length = 32) ∧
    (∀ m1 m2 : List Nat, m1 = m2 → sha256 m1 = sha256 m2) := by
  refine ⟨processOne_fetch_first, fun m => ?_, fun m1 m2 hm => by rw [hm]⟩
  simp [sha256, wordBytes]

/-- Witness for C8 at concrete inputs. -/
theorem fingerprint_first_witness :
    ((processOne envHappy false none initCache exC1a).2.1).head?
        = some (Event.fetchDoc exC1a) ∧
    (sha256 [97, 98, 99]).length = 32 ∧
    sha256 [1, 2] = sha256 [1, 2] :=
  ⟨fingerprint_first.1 envHappy false none initCache exC1a,
   fingerprint_first.2.1 [97, 98, 99],
   fingerprint_first.2.2 [1, 2] [1, 2] rfl⟩

/-- C5.  Lazily cached inventory lookup: a first lookup for an unpopulated
code that succeeds performs exactly one category resolution, one listing
and one download per listed file, stores the resulting fingerprint list
under the code, and returns it; a subsequent lookup for the same code
returns the stored list with an empty trace (no category-resolution or
listing call) and an unchanged state. -/
theorem inventory_lookup_cached (env : Env) (st : Cache) (code slug : String)
    (files : List String) (hs : List Hash)
    (hmiss : st code = none)
    (hslug : env.slugResponse code = Except.ok slug)
    (hlist : env.listResponse slug = Except.ok files)
    (hfiles : (hashExistingFiles env files).2 = Except.ok hs) :
    get_hashes_for_infr_code env st code
        = (fun c => if c = code then some hs else st c,
           Event.resolveCat code :: Event.listCat slug :: files.map Event.fetchExisting,
           Except.ok hs) ∧
    get_hashes_for_infr_code env (get_hashes_for_infr_code env st code).1 code
        = ((get_hashes_for_infr_code env st code).1, [], Except.ok hs) := by
  have htr := hashExistingFiles_ok_trace env files hs hfiles
  have hcat : get_hashes_for_category env slug
      = (Event.listCat slug :: files.map Event.fetchExisting, Except.ok hs) := by
    unfold get_hashes_for_category
    rw [hlist]
    show (Event.listCat slug :: (hashExistingFiles env files).1,
          (hashExistingFiles env files).2) = _
    rw [htr, hfiles]
  have h1 : get_hashes_for_infr_code env st code
      = (fun c => if c = code then some hs else st c,
         Event.resolveCat code :: Event.listCat slug :: files.map Event.fetchExisting,
         Except.ok hs) := by
    unfold get_hashes_for_infr_code
    rw [hmiss, hslug]
    simp only [hcat]
  refine ⟨h1, ?_⟩
  have hstored : (get_hashes_for_infr_code env st code).1 code = some hs := by
    rw [h1]
    simp
  exact get_hashes_hit env _ code hs hstored

/-- Witness for C5: in the healthy environment, the second lookup for the
concrete code answers from the cache with no remote call. -/
theorem inventory_lookup_cached_witness :
    get_hashes_for_infr_code envHappy
        (get_hashes_for_infr_code envHappy initCache "INFR10079").1 "INFR10079"
      = ((get_hashes_for_infr_code envHappy initCache "INFR10079").1, [],
         Except.ok [[9, 5]]) :=
  (inventory_lookup_cached envHappy initCache "INFR10079" "ads" ["old.pdf"] [[9, 5]]
    rfl (by decide) (by decide) (by decide)).2

/-- C6.  Tolerate-prefixes policy: when the category of an unpopulated code
fails to resolve (and the document is not known-bad), the strict `none`
policy re-raises the error; under a prefix list the document is decided
`SkipUnknownCategory` exactly when some listed prefix is a prefix of its
category code, and the error is re-raised (fatal) when no prefix matches. -/
theorem tolerate_prefixes_policy (env : Env) (dry : Bool) (st : Cache) (ex : Exam)
    (ps : List String) (e : Err)
    (hkb : hashOf env ex ∉ known_bad_hashes)
    (hmiss : st ex.infr_code = none)
    (hslug : env.slugResponse ex.infr_code = Except.error e) :
    (processOne env dry none st ex).2.2 = Except.error e ∧
    ((processOne env dry (some ps) st ex).2.2 = Except.ok Decision.SkipUnknownCategory
        ↔ ∃ p ∈ ps, strStartsWith ex.infr_code p = true) ∧
    (ps.any (fun p => strStartsWith ex.infr_code p) = false →
        (processOne env dry (some ps) st ex).2.2 = Except.error e) := by
  have hg : get_hashes_for_infr_code env st ex.infr_code
      = (st, [Event.resolveCat ex.infr_code], Except.error e) := by
    unfold get_hashes_for_infr_code
    rw [hmiss, hslug]
  refine ⟨?_, ⟨?_, ?_⟩, fun hany => ?_⟩
  · rw [processOne_failStrict env dry st ex st [Event.resolveCat ex.infr_code] e hkb hg]
  · intro hd
    by_contra hnex
    have hany : ps.any (fun p => strStartsWith ex.infr_code p) = false := by
      rw [List.any_eq_false]
      intro p hp hstart
      exact hnex ⟨p, hp, hstart⟩
    rw [processOne_failNoMatch env dry st ex ps st _ e hkb hg hany] at hd
    exact Except.noConfusion hd
  · intro hex
    have hany : ps.any (fun p => strStartsWith ex.infr_code p) = true :=
      List.any_eq_true.mpr hex
    rw [processOne_failSkip env dry st ex ps st _ e hkb hg hany]
  · rw [processOne_failNoMatch env dry st ex ps st _ e hkb hg hany]

/-- Witness for C6: with prefix list `["INFR"]`, the unresolvable code
`INFR101` is skipped while `EPCC200` escalates; under the strict policy
`INFR101` escalates too. -/
theorem tolerate_prefixes_policy_witness :
    (processOne envResFail false (some ["INFR"]) initCache exInfr101).2.2
        = Except.ok Decision.SkipUnknownCategory ∧
    (processOne envResFail false (some ["INFR"]) initCache exEpcc).2.2
        = Except.error "no category" ∧
    (processOne envResFail false none initCache exInfr101).2.2
        = Except.error "no category" :=
  ⟨(tolerate_prefixes_policy envResFail false initCache exInfr101 ["INFR"] "no category"
      (by decide) rfl (by decide)).2.1.mpr ⟨"INFR", by decide, by decide⟩,
   (tolerate_prefixes_policy envResFail false initCache exEpcc ["INFR"] "no category"
      (by decide) rfl (by decide)).2.2 (by decide),
   (tolerate_prefixes_policy envResFail false initCache exInfr101 ["INFR"] "no category"
      (by decide) rfl (by decide)).1⟩

/-- Counterexample to C7 as stated: a failure during the duplicate check
that is *not* a category-resolution failure — here the category resolves to
`ads` but listing it returns a non-200 — is *not* propagated when the code
matches a configured prefix: the document is skipped as
`SkipUnknownCategory` instead of the error being fatal. -/
theorem listing_failure_tolerated_counterexample :
    envListFail.slugResponse "INFR101" = Except.ok "ads" ∧
    (get_hashes_for_infr_code envListFail initCache "INFR101").2.2
        = Except.error "listing failed" ∧
    (processOne envListFail false (some ["INFR"]) initCache exInfr101).2.2
        = Except.ok Decision.SkipUnknownCategory :=
  ⟨by decide, by decide, by decide⟩

/-- C7 amended.  The `except Exception` handler of the duplicate check does
not distinguish error kinds: *every* failure raised during the duplicate
check — here a listing failure after successful category resolution — is
subject to the same prefix-tolerance policy: fatal under the strict `none`
policy, skipped when a prefix matches, fatal when none matches. -/
theorem all_dup_check_failures_tolerated (env : Env) (dry : Bool) (st : Cache)
    (ex : Exam) (ps : List String) (slug : String) (e : Err)
    (hkb : hashOf env ex ∉ known_bad_hashes)
    (hmiss : st ex.infr_code = none)
    (hslug : env.slugResponse ex.infr_code = Except.ok slug)
    (hlist : env.listResponse slug = Except.error e) :
    (processOne env dry none st ex).2.2 = Except.error e ∧
    (ps.any (fun p => strStartsWith ex.infr_code p) = true →
        (processOne env dry (some ps) st ex).2.2 = Except.ok Decision.SkipUnknownCategory) ∧
    (ps.any (fun p => strStartsWith ex.infr_code p) = false →
        (processOne env dry (some ps) st ex).2.2 = Except.error e) := by
  have hcat : get_hashes_for_category env slug = ([Event.listCat slug], Except.error e) := by
    unfold get_hashes_for_category
    rw [hlist]
  have hg : get_hashes_for_infr_code env st ex.infr_code
      = (st, [Event.resolveCat ex.infr_code, Event.listCat slug], Except.error e) := by
    unfold get_hashes_for_infr_code
    rw [hmiss, hslug]
    simp only [hcat]
  refine ⟨?_, fun hany => ?_, fun hany => ?_⟩
  · rw [processOne_failStrict env dry st ex st _ e hkb hg]
  · rw [processOne_failSkip env dry st ex ps st _ e hkb hg hany]
  · rw [processOne_failNoMatch env dry st ex ps st _ e hkb hg hany]

/-- Witness for the amended C7: the concrete listing failure is skipped
under a matching prefix and fatal under the strict policy. -/
theorem all_dup_check_failures_tolerated_witness :
    (processOne envListFail false (some ["INFR"]) initCache exInfr101).2.2
        = Except.ok Decision.SkipUnknownCategory ∧
    (processOne envListFail false none initCache exInfr101).2.2
        = Except.error "listing failed" :=
  ⟨(all_dup_check_failures_tolerated envListFail false initCache exInfr101 ["INFR"] "ads"
      "listing failed" (by decide) rfl (by decide) (by decide)).2.1 (by decide),
   (all_dup_check_failures_tolerated envListFail false initCache exInfr101 ["INFR"] "ads"
      "listing failed" (by decide) rfl (by decide) (by decide)).1⟩

/-- C9.  A prefix list containing the empty string tolerates every code:
every string starts with `""`, so any duplicate-check failure is skipped;
and the loud skip message is printed exactly when the configured list is
the one-element list `[""]` — any other configuration skips silently. -/
theorem empty_prefix_tolerates_all (env : Env) (dry : Bool) (st : Cache) (ex : Exam)
    (ps : List String) (e : Err)
    (hkb : hashOf env ex ∉ known_bad_hashes)
    (hget : (get_hashes_for_infr_code env st ex.infr_code).2.2 = Except.error e) :
    ("" ∈ ps →
      (processOne env dry (some ps) st ex).2.2 = Except.ok Decision.SkipUnknownCategory) ∧
    (Event.loudSkip ex ∈ (processOne env dry (some ps) st ex).2.1 ↔ ps = [""]) := by
  rcases hgfull : get_hashes_for_infr_code env st ex.infr_code with ⟨st1, evts, r⟩
  have hr : r = Except.error e := by rw [hgfull] at hget; exact hget
  subst hr
  have hnol : Event.loudSkip ex ∉ evts := by
    intro hmem
    have hevts : (get_hashes_for_infr_code env st ex.infr_code).2.1 = evts := by rw [hgfull]
    rcases get_hashes_trace_shape env st ex.infr_code (Event.loudSkip ex) (hevts ▸ hmem)
      with ⟨a, ha⟩ | ⟨a, ha⟩ | ⟨a, ha⟩ <;> exact Event.noConfusion ha
  constructor
  · intro hin
    have hany : ps.any (fun p => strStartsWith ex.infr_code p) = true :=
      List.any_eq_true.mpr ⟨"", hin, by simp [strStartsWith]⟩
    rw [processOne_failSkip env dry st ex ps st1 evts e hkb hgfull hany]
  · constructor
    · intro hmem
      by_contra hne
      cases hany : ps.any (fun p => strStartsWith ex.infr_code p) with
      | false =>
        rw [processOne_failNoMatch env dry st ex ps st1 evts e hkb hgfull hany] at hmem
        have hmem2 : Event.loudSkip ex ∈ Event.fetchDoc ex :: evts := hmem
        rcases List.mem_cons.mp hmem2 with h1 | h2
        · exact Event.noConfusion h1
        · exact hnol h2
      | true =>
        rw [processOne_failSkip env dry st ex ps st1 evts e hkb hgfull hany] at hmem
        have hmem2 : Event.loudSkip ex ∈
            Event.fetchDoc ex ::
              (if ps = [""] then evts ++ [Event.loudSkip ex] else evts) := hmem
        rw [if_neg hne] at hmem2
        rcases List.mem_cons.mp hmem2 with h1 | h2
        · exact Event.noConfusion h1
        · exact hnol h2
    · intro hps
      subst hps
      have hany : (([""] : List String).any (fun p => strStartsWith ex.infr_code p)) = true := by
        simp [strStartsWith]
      rw [processOne_failSkip env dry st ex [""] st1 evts e hkb hgfull hany]
      simp

/-- Witness for C9: with the configuration `[""]`, even the non-INFR code
`EPCC200` is skipped on a resolution failure, and the loud message event is
emitted. -/
theorem empty_prefix_tolerates_all_witness :
    (processOne envResFail false (some [""]) initCache exEpcc).2.2
        = Except.ok Decision.SkipUnknownCategory ∧
    Event.loudSkip exEpcc ∈ (processOne envResFail false (some [""]) initCache exEpcc).2.1 :=
  ⟨(empty_prefix_tolerates_all envResFail false initCache exEpcc [""] "no category"
      (by decide) (by decide)).1 (by decide),
   (empty_prefix_tolerates_all envResFail false initCache exEpcc [""] "no category"
      (by decide) (by decide)).2.mpr rfl⟩

/-- Counterexample to C1 as stated: a fingerprint can be present in the
per-category inventory (listed from the destination on the first lookup)
while also being in the known-bad set — the destination may still hold a
known-bad file.  A later document of the same run with that fingerprint
and category code is then decided `SkipKnownBad`, not `SkipDuplicate` as
the claim demands (the known-bad check runs first). -/
theorem at_most_once_per_category_counterexample :
    (process_exams envC1 false none initCache [exC1a]).state "INFR10079"
        = some [knownBad1, [9, 1]] ∧
    exC1b.infr_code = "INFR10079" ∧
    hashOf envC1 exC1b = knownBad1 ∧
    (process_exams envC1 false none initCache [exC1a, exC1b]).outcomes
        = [(exC1a, Decision.Upload [9, 1]
              "https://files.betterinformatics.com/exams/new.pdf"),
           (exC1b, Decision.SkipKnownBad)] ∧
    Decision.SkipKnownBad ≠ Decision.SkipDuplicate :=
  ⟨by decide, by decide, by decide, by decide, by decide⟩

/-- C1 amended.  At-most-once upload per content per category: over any
batch, at most one document with a given category code uploads a given
fingerprint; and once a fingerprint is recorded in the inventory under a
code, a document with that code and fingerprint never yields an upload —
it yields `SkipDuplicate` unless the fingerprint is known-bad (in which
case the known-bad skip takes precedence). -/
theorem at_most_once_per_category (env : Env) (dry : Bool) (cont : Option (List String))
    (st : Cache) (exams : List Exam) (ex : Exam) (c : String) (h : Hash)
    (hmem : inCache st c h) (hcode : ex.infr_code = c) (hh : hashOf env ex = h) :
    countUploads (process_exams env dry cont st exams).outcomes c h ≤ 1 ∧
    (∀ h' url, (processOne env dry cont st ex).2.2 ≠ Except.ok (Decision.Upload h' url)) ∧
    (h ∉ known_bad_hashes →
      processOne env dry cont st ex
        = (st, [Event.fetchDoc ex], Except.ok Decision.SkipDuplicate)) := by
  refine ⟨process_exams_atMostOnce env dry cont c h exams st,
    processOne_present_noUpload env dry cont st ex h (by rw [hcode]; exact hmem) hh,
    fun hkb => ?_⟩
  obtain ⟨hs, hst, hm⟩ := hmem
  exact processOne_present_dup env dry cont st ex hs (by rw [hcode]; exact hst)
    (by rw [hh]; exact hm) (by rw [hh]; exact hkb)

/-- Witness for the amended C1: with the fingerprint `[9, 5]` already
stored, the concrete document with that fingerprint and code is skipped as
a duplicate, and the upload count of the batch stays at most one. -/
theorem at_most_once_per_category_witness :
    countUploads (process_exams envDup false none stW [exC1a]).outcomes
        "INFR10079" [9, 5] ≤ 1 ∧
    processOne envDup false none stW exC1a
        = (stW, [Event.fetchDoc exC1a], Except.ok Decision.SkipDuplicate) :=
  ⟨(at_most_once_per_category envDup false none stW [exC1a] exC1a "INFR10079" [9, 5]
      ⟨[[9, 5]], by decide, by decide⟩ rfl (by decide)).1,
   (at_most_once_per_category envDup false none stW [exC1a] exC1a "INFR10079" [9, 5]
      ⟨[[9, 5]], by decide, by decide⟩ rfl (by decide)).2.2 (by decide)⟩

/-- Counterexample to C3 as stated: an upload failure is *not* per-document
and non-fatal — the exception of the upload call is not caught, so the
batch aborts: the failing document gets no recorded outcome and the next
document in the batch is never processed (not even fetched). -/
theorem upload_failure_nonfatal_counterexample :
    (process_exams envUpFail false none initCache [exC1a, exC1b]).err
        = some "upload failed" ∧
    (process_exams envUpFail false none initCache [exC1a, exC1b]).outcomes = [] ∧
    Event.fetchDoc exC1b ∉ (process_exams envUpFail false none initCache [exC1a, exC1b]).trace :=
  ⟨by decide, by decide, by decide⟩

/-- C3 amended.  When the upload of a document fails, no fingerprint is
recorded for it — the inventory entry of its category stays exactly the
looked-up list, which does not contain the document's fingerprint, and all
other entries are untouched — but the exception propagates: the batch
aborts with that error, records no outcome, and processes no further
document of the batch. -/
theorem upload_failure_aborts_without_record (env : Env) (cont : Option (List String))
    (st : Cache) (ex : Exam) (rest : List Exam) (hs : List Hash) (e : Err)
    (hkb : hashOf env ex ∉ known_bad_hashes)
    (hget : (get_hashes_for_infr_code env st ex.infr_code).2.2 = Except.ok hs)
    (hdup : hashOf env ex ∉ hs)
    (hup : (upload_exam env ex.infr_code (env.contents ex)).2 = Except.error e) :
    (process_exams env false cont st (ex :: rest)).err = some e ∧
    (process_exams env false cont st (ex :: rest)).outcomes = [] ∧
    (process_exams env false cont st (ex :: rest)).state ex.infr_code = some hs ∧
    (∀ c, c ≠ ex.infr_code → (process_exams env false cont st (ex :: rest)).state c = st c) ∧
    (∀ ex2, ex2 ∈ rest → ex2 ≠ ex →
      Event.fetchDoc ex2 ∉ (process_exams env false cont st (ex :: rest)).trace) := by
  rcases hgfull : get_hashes_for_infr_code env st ex.infr_code with ⟨st1, evts, r⟩
  have hr : r = Except.ok hs := by rw [hgfull] at hget; exact hget
  subst hr
  rcases hufull : upload_exam env ex.infr_code (env.contents ex) with ⟨uevts, ru⟩
  have hru : ru = Except.error e := by rw [hufull] at hup; exact hup
  subst hru
  have hpone := processOne_uploadFail env cont st ex st1 evts uevts hs e hkb hgfull hdup hufull
  have hrun := process_exams_cons_err env false cont st ex rest st1
      (Event.fetchDoc ex :: (evts ++ uevts)) e hpone
  rw [hrun]
  refine ⟨rfl, rfl, get_hashes_ok_stores env st ex.infr_code st1 evts hs hgfull,
    fun c hc => ?_, fun ex2 _ hne hmem => ?_⟩
  · have hfr := (get_hashes_frame env st ex.infr_code).1 c hc
    rw [hgfull] at hfr
    exact hfr
  · have hmem2 : Event.fetchDoc ex2 ∈ Event.fetchDoc ex :: (evts ++ uevts) := hmem
    rcases List.mem_cons.mp hmem2 with h1 | h2
    · exact hne (by injection h1)
    · rcases List.mem_append.mp h2 with h3 | h4
      · have hevts : (get_hashes_for_infr_code env st ex.infr_code).2.1 = evts := by
          rw [hgfull]
        rcases get_hashes_trace_shape env st ex.infr_code _ (hevts ▸ h3)
          with ⟨a, ha⟩ | ⟨a, ha⟩ | ⟨a, ha⟩ <;> exact Event.noConfusion ha
      · have huevts : (upload_exam env ex.infr_code (env.contents ex)).1 = uevts := by
          rw [hufull]
        rcases upload_exam_trace_shape env ex.infr_code (env.contents ex) _ (huevts ▸ h4)
          with ⟨a, ha⟩ | ⟨a, b2, ha⟩ <;> exact Event.noConfusion ha

/-- Witness for the amended C3 at the concrete failing environment. -/
theorem upload_failure_aborts_without_record_witness :
    (process_exams envUpFail false none initCache [exC1a, exC1b]).err
        = some "upload failed" ∧
    (process_exams envUpFail false none initCache [exC1a, exC1b]).outcomes = [] ∧
    (process_exams envUpFail false none initCache [exC1a, exC1b]).state "INFR10079"
        = some [[9, 5]] :=
  ⟨(upload_failure_aborts_without_record envUpFail none initCache exC1a [exC1b] [[9, 5]]
      "upload failed" (by decide) (by decide) (by decide) (by decide)).1,
   (upload_failure_aborts_without_record envUpFail none initCache exC1a [exC1b] [[9, 5]]
      "upload failed" (by decide) (by decide) (by decide) (by decide)).2.1,
   (upload_failure_aborts_without_record envUpFail none initCache exC1a [exC1b] [[9, 5]]
      "upload failed" (by decide) (by decide) (by decide) (by decide)).2.2.1⟩

/-- C10.  Frame property: one processing step touches at most the inventory
entry of the document's own category code; entries never shrink (neither in
one step nor over a whole batch — the old list is always a prefix of the
new one); and a successful upload appends exactly the uploaded document's
fingerprint to the looked-up list of its category. -/
theorem per_document_frame (env : Env) (dry : Bool) (cont : Option (List String))
    (st : Cache) (ex : Exam) (exams : List Exam) :
    (∀ c, c ≠ ex.infr_code → (processOne env dry cont st ex).1 c = st c) ∧
    (∀ c hs hs', st c = some hs → (processOne env dry cont st ex).1 c = some hs' →
      hs <+: hs') ∧
    (∀ h url hs, (processOne env dry cont st ex).2.2 = Except.ok (Decision.Upload h url) →
      (get_hashes_for_infr_code env st ex.infr_code).2.2 = Except.ok hs →
      (processOne env dry cont st ex).1 ex.infr_code = some (hs ++ [h])) ∧
    (∀ c hs hs', st c = some hs → (process_exams env dry cont st exams).state c = some hs' →
      hs <+: hs') := by
  refine ⟨processOne_frame env dry cont st ex, fun c hs hs' hc hc' => ?_,
    fun h url hs hd hget => processOne_upload_appends env dry cont st ex h url hs hd hget,
    fun c hs hs' hc hc' => ?_⟩
  · obtain ⟨t, ht⟩ := processOne_grow env dry cont st ex c hs hc
    rw [ht] at hc'
    injection hc' with h2
    exact ⟨t, h2⟩
  · obtain ⟨t, ht⟩ := process_exams_grow env dry cont exams st c hs hc
    rw [ht] at hc'
    injection hc' with h2
    exact ⟨t, h2⟩

/-- Witness for C10 at a concrete upload: the other category's entry is
untouched, the old list is a prefix of the new one, and exactly the
uploaded fingerprint was appended. -/
theorem per_document_frame_witness :
    (processOne envHappy false none stW exC1a).1 "EPCC200" = stW "EPCC200" ∧
    [[9, 5]] <+: [[9, 5], [9, 1]] ∧
    (processOne envHappy false none stW exC1a).1 "INFR10079"
        = some ([[9, 5]] ++ [[9, 1]]) :=
  ⟨(per_document_frame envHappy false none stW exC1a []).1 "EPCC200" (by decide),
   (per_document_frame envHappy false none stW exC1a []).2.1 "INFR10079"
     [[9, 5]] [[9, 5], [9, 1]] (by decide) (by decide),
   (per_document_frame envHappy false none stW exC1a []).2.2.1 [9, 1]
     "https://files.betterinformatics.com/exams/new.pdf" [[9, 5]] (by decide) (by decide)⟩

end ExamShtocker
